import Mathlib

/-!
Shallow embedding of the media-validation pipeline (validate_media.py and
validate_media_single.py): file paths, a finite filesystem with per-file
content, the collision-avoiding name resolver, the classifier
(detect_media_and_normalize_suffix), the validators (pool worker and
sequential), and the per-record transition loop of rename_media_files.
-/

namespace VMedia

/-- Decimal digit rendered as a character, as in the f-string counter suffix. -/
def digitChar (d : Nat) : Char :=
  if d = 0 then '0' else if d = 1 then '1' else if d = 2 then '2'
  else if d = 3 then '3' else if d = 4 then '4' else if d = 5 then '5'
  else if d = 6 then '6' else if d = 7 then '7' else if d = 8 then '8' else '9'

/-- Little-endian decimal digits of n as characters, with fuel for termination. -/
def natToCharsAux : Nat → Nat → List Char
  | 0, _ => []
  | _ + 1, 0 => []
  | fuel + 1, n => digitChar (n % 10) :: natToCharsAux fuel (n / 10)

/-- Decimal rendering of a natural number, modelling the Python f-string. -/
def natToChars (n : Nat) : List Char :=
  if n = 0 then ['0'] else (natToCharsAux n n).reverse

/-- A file path: its directory, the stem (name without final extension) and the
extension (with its leading dot, or empty). Mirrors pathlib's parent/stem/suffix. -/
structure MPath where
  dir : List Char
  stem : List Char
  ext : List Char
deriving DecidableEq

/-- A bare file name (the manifest's desired FileName), split as pathlib would. -/
structure MName where
  stem : List Char
  ext : List Char
deriving DecidableEq

/-- Behaviour of the external video probe (ffprobe) on a file's bytes. -/
inductive ProbeRes
  | ok
  | bad
  | timeout
deriving DecidableEq

/-- The content of a file, as seen by the decoders: the image format Pillow
would report, whether a full pixel decode succeeds, and how ffprobe reacts. -/
structure Content where
  imageFmt : Option (List Char)
  pillowLoadOk : Bool
  ffprobe : ProbeRes
deriving DecidableEq

/-- The filesystem: the finite list of existing files with their contents. -/
abbrev FS := List (MPath × Content)

def fsExists (fs : FS) (p : MPath) : Bool :=
  fs.any fun e => decide (e.1 = p)

def lookupContent : FS → MPath → Option Content
  | [], _ => none
  | e :: fs, p => if e.1 = p then some e.2 else lookupContent fs p

/-- Rename (or move) a file: every entry at src now sits at dst. -/
def renameFile (fs : FS) (src dst : MPath) : FS :=
  fs.map fun e => if e.1 = src then (dst, e.2) else e

/-- Delete a file. -/
def removeFile (fs : FS) (p : MPath) : FS :=
  fs.filter fun e => !decide (e.1 = p)

/-- The c-th probe candidate of next_free_name: stem_c with the same extension. -/
def candidate (p : MPath) (c : Nat) : MPath :=
  { p with stem := p.stem ++ '_' :: natToChars c }

/-- The probing loop of next_free_name, with fuel (a defensive cap; the fuel
used below is provably sufficient). -/
def nextFreeAux (fs : FS) (p : MPath) : Nat → Nat → MPath
  | 0, c => candidate p c
  | fuel + 1, c => if fsExists fs (candidate p c) then nextFreeAux fs p fuel (c + 1)
    else candidate p c

/-- next_free_name: if the path does not exist return it unchanged, otherwise
probe stem_1, stem_2, ... in increasing order and return the first free one. -/
def next_free_name (fs : FS) (p : MPath) : MPath :=
  if fsExists fs p then nextFreeAux fs p (fs.length + 1) 1 else p

theorem digitChar_inj {d e : Nat} (hd : d < 10) (he : e < 10)
    (h : digitChar d = digitChar e) : d = e := by
  interval_cases d <;> interval_cases e <;> simp_all [digitChar]

theorem natToCharsAux_eq_digits :
    ∀ fuel n, n ≤ fuel → natToCharsAux fuel n = (Nat.digits 10 n).map digitChar := by
  intro fuel
  induction fuel with
  | zero => intro n hn; interval_cases n; simp [natToCharsAux]
  | succ f ih =>
    intro n hn
    match n with
    | 0 => simp [natToCharsAux]
    | m + 1 =>
      have hdiv : (m + 1) / 10 < m + 1 := Nat.div_lt_self (Nat.succ_pos m) (by norm_num)
      rw [natToCharsAux, Nat.digits_def' (by norm_num : (1:Nat) < 10) (Nat.succ_pos m),
        ih ((m + 1) / 10) (by omega)]
      · simp
      · intro hfalse; exact absurd hfalse (by omega)

theorem map_digitChar_inj :
    ∀ l₁ l₂ : List Nat, (∀ d ∈ l₁, d < 10) → (∀ d ∈ l₂, d < 10) →
      l₁.map digitChar = l₂.map digitChar → l₁ = l₂ := by
  intro l₁
  induction l₁ with
  | nil => intro l₂ _ _ h; cases l₂ <;> simp_all
  | cons a t ih =>
    intro l₂ h1 h2 h
    cases l₂ with
    | nil => simp_all
    | cons b t2 =>
      simp only [List.map_cons, List.cons.injEq] at h
      have ha : a = b := digitChar_inj (h1 a (by simp)) (h2 b (by simp)) h.1
      have ht : t = t2 := ih t2 (fun d hd => h1 d (by simp [hd]))
        (fun d hd => h2 d (by simp [hd])) h.2
      rw [ha, ht]

theorem natToChars_eq_digits (n : Nat) (hn : n ≠ 0) :
    natToChars n = ((Nat.digits 10 n).map digitChar).reverse := by
  rw [natToChars, if_neg hn, natToCharsAux_eq_digits n n le_rfl]

theorem natToChars_zero : natToChars 0 = ['0'] := rfl

theorem natToChars_inj : Function.Injective natToChars := by
  intro m n h
  by_cases hm : m = 0 <;> by_cases hn : n = 0
  · rw [hm, hn]
  · exfalso
    rw [hm, natToChars_zero, natToChars_eq_digits n hn] at h
    have h2 : (Nat.digits 10 n).map digitChar = ['0'] := by
      have := congrArg List.reverse h
      simpa using this.symm
    have h3 : Nat.digits 10 n = [0] := by
      apply map_digitChar_inj
      · exact fun d hd => Nat.digits_lt_base (by norm_num) hd
      · intro d hd; simp at hd; omega
      · rw [h2]; simp [digitChar]
    have h4 := Nat.ofDigits_digits 10 n
    rw [h3] at h4
    simp [Nat.ofDigits] at h4
    exact hn h4.symm
  · exfalso
    rw [hn, natToChars_zero, natToChars_eq_digits m hm] at h
    have h2 : (Nat.digits 10 m).map digitChar = ['0'] := by
      have := congrArg List.reverse h
      simpa using this
    have h3 : Nat.digits 10 m = [0] := by
      apply map_digitChar_inj
      · exact fun d hd => Nat.digits_lt_base (by norm_num) hd
      · intro d hd; simp at hd; omega
      · rw [h2]; simp [digitChar]
    have h4 := Nat.ofDigits_digits 10 m
    rw [h3] at h4
    simp [Nat.ofDigits] at h4
    exact hm h4.symm
  · rw [natToChars_eq_digits m hm, natToChars_eq_digits n hn] at h
    have h2 := List.reverse_injective h
    have h3 : Nat.digits 10 m = Nat.digits 10 n :=
      map_digitChar_inj _ _ (fun d hd => Nat.digits_lt_base (by norm_num) hd)
        (fun d hd => Nat.digits_lt_base (by norm_num) hd) h2
    exact Nat.digits.injective 10 h3

theorem candidate_inj (p : MPath) : Function.Injective (candidate p) := by
  intro c₁ c₂ h
  have hs : p.stem ++ '_' :: natToChars c₁ = p.stem ++ '_' :: natToChars c₂ := by
    have := congrArg MPath.stem h
    simpa [candidate] using this
  have := List.append_cancel_left hs
  exact natToChars_inj (by simpa using this)

theorem candidate_ne_base (p : MPath) (c : Nat) : candidate p c ≠ p := by
  intro h
  have hs := congrArg (fun q => q.stem.length) h
  simp [candidate] at hs

def pathsOf (fs : FS) : List MPath := fs.map Prod.fst

theorem fsExists_iff_mem (fs : FS) (p : MPath) :
    fsExists fs p = true ↔ p ∈ pathsOf fs := by
  simp only [fsExists, List.any_eq_true, decide_eq_true_eq, pathsOf, List.mem_map]

theorem candidate_dir (p : MPath) (c : Nat) : (candidate p c).dir = p.dir := rfl

theorem candidate_ext (p : MPath) (c : Nat) : (candidate p c).ext = p.ext := rfl

theorem nextFreeAux_dir (fs : FS) (p : MPath) :
    ∀ fuel c, (nextFreeAux fs p fuel c).dir = p.dir := by
  intro fuel
  induction fuel with
  | zero => intro c; rfl
  | succ f ih =>
    intro c
    rw [nextFreeAux]
    split
    · exact ih (c + 1)
    · rfl

theorem next_free_name_dir (fs : FS) (p : MPath) :
    (next_free_name fs p).dir = p.dir := by
  rw [next_free_name]
  split
  · exact nextFreeAux_dir fs p _ 1
  · rfl

theorem nextFreeAux_ext (fs : FS) (p : MPath) :
    ∀ fuel c, (nextFreeAux fs p fuel c).ext = p.ext := by
  intro fuel
  induction fuel with
  | zero => intro c; rfl
  | succ f ih =>
    intro c
    rw [nextFreeAux]
    split
    · exact ih (c + 1)
    · rfl

theorem next_free_name_ext (fs : FS) (p : MPath) :
    (next_free_name fs p).ext = p.ext := by
  rw [next_free_name]
  split
  · exact nextFreeAux_ext fs p _ 1
  · rfl

theorem nextFreeAux_spec (fs : FS) (p : MPath) :
    ∀ fuel c m, m < fuel →
      (∀ j, j < m → fsExists fs (candidate p (c + j)) = true) →
      fsExists fs (candidate p (c + m)) = false →
      nextFreeAux fs p fuel c = candidate p (c + m) := by
  intro fuel
  induction fuel with
  | zero => intro c m hm; omega
  | succ f ih =>
    intro c m hm hocc hfree
    match m with
    | 0 =>
      rw [nextFreeAux]
      simp only [Nat.add_zero] at hfree
      rw [hfree]
      simp
    | k + 1 =>
      have h0 : fsExists fs (candidate p c) = true := by
        have := hocc 0 (by omega)
        simpa using this
      rw [nextFreeAux, h0]
      simp only [if_true]
      have hres := ih (c + 1) k (by omega)
        (fun j hj => by
          have := hocc (j + 1) (by omega)
          rwa [show c + (j + 1) = c + 1 + j by omega] at this)
        (by rwa [show c + 1 + k = c + (k + 1) by omega])
      rw [hres, show c + 1 + k = c + (k + 1) by omega]

theorem exists_free_candidate (fs : FS) (p : MPath) :
    ∃ m, m ≤ fs.length ∧ fsExists fs (candidate p (1 + m)) = false := by
  by_contra hcon
  push_neg at hcon
  have hall : ∀ m, m ≤ fs.length → fsExists fs (candidate p (1 + m)) = true := by
    intro m hm
    have := hcon m hm
    cases hx : fsExists fs (candidate p (1 + m))
    · exact absurd hx this
    · rfl
  have hinj : Function.Injective (fun i : Nat => candidate p (1 + i)) := by
    intro a b hab
    have := candidate_inj p hab
    omega
  have hnodup : ((List.range (fs.length + 1)).map fun i => candidate p (1 + i)).Nodup :=
    (List.nodup_range _).map hinj
  have hsub : ((List.range (fs.length + 1)).map fun i => candidate p (1 + i)) ⊆ pathsOf fs := by
    intro x hx
    simp only [List.mem_map, List.mem_range] at hx
    obtain ⟨i, hi, rfl⟩ := hx
    exact (fsExists_iff_mem fs _).mp (hall i (by omega))
  have hlen := (hnodup.subperm hsub).length_le
  simp only [List.length_map, List.length_range, pathsOf] at hlen
  omega

theorem next_free_not_exists (fs : FS) (p : MPath) :
    fsExists fs (next_free_name fs p) = false := by
  rw [next_free_name]
  cases hp : fsExists fs p with
  | false => simpa using hp
  | true =>
    simp only [if_true]
    have hex : ∃ m, fsExists fs (candidate p (1 + m)) = false := by
      obtain ⟨m, _, hm⟩ := exists_free_candidate fs p
      exact ⟨m, hm⟩
    set m0 := Nat.find hex with hm0
    have hfree : fsExists fs (candidate p (1 + m0)) = false := Nat.find_spec hex
    obtain ⟨mw, hmw, hmwf⟩ := exists_free_candidate fs p
    have hle : m0 ≤ mw := Nat.find_min' hex hmwf
    have hocc : ∀ j, j < m0 → fsExists fs (candidate p (1 + j)) = true := by
      intro j hj
      have hne := Nat.find_min hex hj
      cases hx : fsExists fs (candidate p (1 + j))
      · exact absurd hx hne
      · rfl
    have hspec := nextFreeAux_spec fs p (fs.length + 1) 1 m0 (by omega) hocc hfree
    rw [hspec]
    exact hfree

theorem lookupContent_renameFile (fs : FS) (p q : MPath)
    (hq : fsExists fs q = false) :
    lookupContent (renameFile fs p q) q = lookupContent fs p := by
  induction fs with
  | nil => rfl
  | cons e t ih =>
    have hq2 : fsExists t q = false := by
      simp only [fsExists, List.any_cons, Bool.or_eq_false_iff] at hq
      exact hq.2
    have hne : e.1 ≠ q := by
      simp only [fsExists, List.any_cons, Bool.or_eq_false_iff, decide_eq_false_iff_not] at hq
      exact hq.1
    by_cases hep : e.1 = p
    · simp [renameFile, lookupContent, hep]
    · simp only [renameFile, List.map_cons, if_neg hep]
      rw [lookupContent, lookupContent, if_neg hne, if_neg hep]
      exact ih hq2

theorem fsExists_renameFile_dst (fs : FS) (p q : MPath)
    (hp : fsExists fs p = true) :
    fsExists (renameFile fs p q) q = true := by
  induction fs with
  | nil => simp [fsExists] at hp
  | cons e t ih =>
    by_cases hep : e.1 = p
    · simp [renameFile, fsExists, hep]
    · simp only [fsExists, List.any_cons, Bool.or_eq_true, decide_eq_true_eq] at hp
      rcases hp with hp | hp
      · exact absurd hp hep
      · simp only [renameFile, List.map_cons, if_neg hep, fsExists, List.any_cons,
          Bool.or_eq_true]
        right
        exact ih hp

theorem fsExists_removeFile_self (fs : FS) (p : MPath) :
    fsExists (removeFile fs p) p = false := by
  induction fs with
  | nil => rfl
  | cons e t ih =>
    by_cases hep : e.1 = p
    · rw [show removeFile (e :: t) p = removeFile t p by simp [removeFile, hep]]
      exact ih
    · rw [show removeFile (e :: t) p = e :: removeFile t p by simp [removeFile, hep]]
      rw [fsExists, List.any_cons]
      simp only [Bool.or_eq_false_iff, decide_eq_false_iff_not]
      exact ⟨hep, ih⟩

theorem lookupContent_isSome_fsExists (fs : FS) (p : MPath) (c : Content)
    (h : lookupContent fs p = some c) : fsExists fs p = true := by
  induction fs with
  | nil => simp [lookupContent] at h
  | cons e t ih =>
    rw [lookupContent] at h
    by_cases hep : e.1 = p
    · simp [fsExists, hep]
    · rw [if_neg hep] at h
      simp only [fsExists, List.any_cons, Bool.or_eq_true]
      right
      exact ih h

/-- The host environment: which optional capabilities are present, and oracles
for nondeterministic events (pool timeouts, concurrent file disappearance,
filesystem operation failures). -/
structure Env where
  hasFfprobe : Bool
  heicSupported : Bool
  poolTimeout : MPath → Bool
  vanishes : MPath → Bool
  renameFail : MPath → MPath → Bool
  moveFail : MPath → MPath → Bool
  unlinkFail : MPath → Bool

/-- An exception escaping an unwrapped filesystem call. -/
inductive Err
  | notFound
  | opFail
deriving DecidableEq

/-- Result of a call that may raise: the embedded counterpart of a Python
function body that either returns or lets an exception propagate. -/
inductive PRes (A : Type) where
  | ok (a : A)
  | raised (e : Err)
deriving DecidableEq

def lowerExt (p : MPath) : List Char := p.ext.map Char.toLower

def known_image_suffixes_base : List (List Char) :=
  [".jpg".toList, ".jpeg".toList, ".png".toList, ".gif".toList, ".bmp".toList,
   ".tiff".toList, ".webp".toList, ".tif".toList]

/-- The known image extensions, with .heic appended iff HEIC_SUPPORTED. -/
def known_image_suffixes (env : Env) : List (List Char) :=
  known_image_suffixes_base ++ (if env.heicSupported then [".heic".toList] else [])

def known_video_suffixes : List (List Char) :=
  [".mp4".toList, ".avi".toList, ".mov".toList, ".mkv".toList, ".flv".toList,
   ".wmv".toList, ".webm".toList, ".m4v".toList, ".hevc".toList, ".h265".toList]

/-- image_format_to_suffix: maps Pillow format names to canonical extensions. -/
def image_format_to_suffix (fmt : List Char) : Option (List Char) :=
  let f := fmt.map Char.toUpper
  if f = "JPEG".toList then some ".jpg".toList
  else if f = "JPG".toList then some ".jpg".toList
  else if f = "PNG".toList then some ".png".toList
  else if f = "TIFF".toList then some ".tif".toList
  else if f = "BMP".toList then some ".bmp".toList
  else if f = "GIF".toList then some ".gif".toList
  else if f = "WEBP".toList then some ".webp".toList
  else if f = "HEIC".toList then some ".heic".toList
  else none

/-- The format Pillow reports for a given content: the true format, except that
HEIC content is unreadable when pillow-heif is absent. -/
def pillowFormat (env : Env) (c : Content) : Option (List Char) :=
  match c.imageFmt with
  | some f => if f.map Char.toUpper = "HEIC".toList && !env.heicSupported then none else some f
  | none => none

/-- detect_image_format: Pillow-based sniffing; a missing or unreadable file
raises inside, which the function catches and turns into None. -/
def detect_image_format (env : Env) (fs : FS) (p : MPath) : Option (List Char) :=
  (lookupContent fs p).bind (pillowFormat env)

/-- is_valid_video_ffprobe: None when ffprobe is absent or times out, True when
a video stream is found, False on any ffprobe failure (including missing file). -/
def is_valid_video_ffprobe (env : Env) (fs : FS) (p : MPath) : Option Bool :=
  if !env.hasFfprobe then none
  else
    match lookupContent fs p with
    | none => some false
    | some c =>
      match c.ffprobe with
      | ProbeRes.ok => some true
      | ProbeRes.bad => some false
      | ProbeRes.timeout => none

/-- The old-extension tag: suffix with leading dots stripped, or NOEXT. -/
def oldExtTag (suffix : List Char) : List Char :=
  if suffix = [] then "NOEXT".toList else suffix.dropWhile (fun ch => ch = '.')

/-- detect_media_and_normalize_suffix (validate_media.py): content-sniff an
image and normalize its extension (renaming the file), else accept files with
a known video extension when ffprobe reports a stream, else None.
The rename is not guarded: FileNotFoundError or any other error propagates. -/
def detect_media_and_normalize_suffix (env : Env) (fs : FS) (p : MPath) :
    FS × PRes (Option MPath) :=
  let suffix := lowerExt p
  match detect_image_format env fs p with
  | some fmt =>
    match image_format_to_suffix fmt with
    | none => (fs, PRes.ok (some p))
    | some newExt =>
      if suffix = newExt then (fs, PRes.ok (some p))
      else
        let newPath := next_free_name fs
          ⟨p.dir, '(' :: (oldExtTag suffix ++ ')' :: p.stem), newExt⟩
        if env.vanishes p then (removeFile fs p, PRes.raised Err.notFound)
        else if env.renameFail p newPath then (fs, PRes.raised Err.opFail)
        else (renameFile fs p newPath, PRes.ok (some newPath))
  | none =>
    if suffix ∈ known_video_suffixes then
      match is_valid_video_ffprobe env fs p with
      | some true => (fs, PRes.ok (some p))
      | _ => (fs, PRes.ok none)
    else (fs, PRes.ok none)

/-- detect_media_and_normalize_suffix (validate_media_single.py): adds the
.thumb/.thm special case and catches FileNotFoundError around its renames
(other rename errors still propagate). -/
def detect_media_and_normalize_suffix_single (env : Env) (fs : FS) (p : MPath) :
    FS × PRes (Option MPath) :=
  let suffix := lowerExt p
  if suffix = ".thumb".toList ∨ suffix = ".thm".toList then
    if "(thumb)".toList.isPrefixOf p.stem ∨ "(thm)".toList.isPrefixOf p.stem then
      (fs, PRes.ok (some p))
    else
      let tag := let t := suffix.dropWhile (fun ch => ch = '.')
                 if t = [] then "NOEXT".toList else t
      let newPath := next_free_name fs
        ⟨p.dir, '(' :: (tag ++ ')' :: p.stem), ".jpg".toList⟩
      if env.vanishes p then
        let fs1 := removeFile fs p
        if fsExists fs1 newPath then (fs1, PRes.ok (some newPath))
        else (fs1, PRes.ok none)
      else if env.renameFail p newPath then (fs, PRes.raised Err.opFail)
      else (renameFile fs p newPath, PRes.ok (some newPath))
  else
    match detect_image_format env fs p with
    | some fmt =>
      match image_format_to_suffix (fmt.map Char.toUpper) with
      | none => (fs, PRes.ok (some p))
      | some newExt =>
        if lowerExt p = newExt.map Char.toLower then (fs, PRes.ok (some p))
        else
          let oldExt := lowerExt p
          let newPath := next_free_name fs
            ⟨p.dir, '(' :: (oldExtTag oldExt ++ ')' :: p.stem), newExt⟩
          if env.vanishes p then (removeFile fs p, PRes.ok none)
          else if env.renameFail p newPath then (fs, PRes.raised Err.opFail)
          else (renameFile fs p newPath, PRes.ok (some newPath))
    | none =>
      if suffix ∈ known_video_suffixes then
        match is_valid_video_ffprobe env fs p with
        | some true => (fs, PRes.ok (some p))
        | _ => (fs, PRes.ok none)
      else (fs, PRes.ok none)

/-- The image-open-and-fully-load check of the worker: Image.open succeeds iff
Pillow identifies the format, img.load succeeds iff the pixel data decodes. -/
def pillowOpenLoad (env : Env) (fs : FS) (p : MPath) : Bool :=
  match lookupContent fs p with
  | some c => (pillowFormat env c).isSome && c.pillowLoadOk
  | none => false

/-- The worker body _check_media_worker (validate_media.py): True/False only;
note bool(ok) coerces a None ffprobe result to False for video files. -/
def check_media_worker (env : Env) (fs : FS) (p : MPath) : Bool :=
  let suffix := lowerExt p
  if suffix ∈ known_image_suffixes env then pillowOpenLoad env fs p
  else if suffix ∈ known_video_suffixes then
    match is_valid_video_ffprobe env fs p with
    | some true => true
    | _ => false
  else (detect_image_format env fs p).isSome

/-- is_valid_media (validate_media.py): the worker result fetched with a
main-process timeout; a pool timeout or pool error yields None. -/
def is_valid_media (env : Env) (fs : FS) (p : MPath) : Option Bool :=
  if env.poolTimeout p then none else some (check_media_worker env fs p)

/-- is_valid_media (validate_media_single.py): sequential; for video files the
ffprobe tri-state result is returned unchanged (None possible). -/
def is_valid_media_single (env : Env) (fs : FS) (p : MPath) : Option Bool :=
  let suffix := lowerExt p
  if suffix ∈ known_image_suffixes env then some (pillowOpenLoad env fs p)
  else if suffix ∈ known_video_suffixes then is_valid_video_ffprobe env fs p
  else some (detect_image_format env fs p).isSome

/-- The target-name computation for a valid file in validate_media.py
(lines 539-585): manifest FileName, with special cases for files without
extension and for unknown extensions that are images by content. -/
def poolTargetName (env : Env) (fs : FS) (norm : MPath) (fileName : MName) : MName :=
  let suffix := lowerExt norm
  if suffix = [] then
    let ext := match (detect_image_format env fs norm).bind image_format_to_suffix with
      | some e => e
      | none => ".jpg".toList
    ⟨"(NOEXT)".toList ++ fileName.stem, ext⟩
  else if suffix ∉ known_image_suffixes env ∧ suffix ∉ known_video_suffixes then
    match (detect_image_format env fs norm).bind image_format_to_suffix with
    | some ext2 => ⟨'(' :: (oldExtTag suffix ++ ')' :: fileName.stem), ext2⟩
    | none => fileName
  else fileName

/-- The terminal outcome of one manifest record. -/
inductive Outcome
  | accepted
  | rejected
  | quarantined
  | skippedVanished
deriving DecidableEq

/-- The mutable run state: the filesystem plus the statistics counters of
rename_media_files, and an instrumentation counter of validator invocations. -/
structure RunState where
  fs : FS
  validCount : Nat
  invalidCount : Nat
  skippedTimeout : Nat
  validatorCalls : Nat
deriving DecidableEq

/-- One collected record: the resolved source path and the manifest FileName. -/
structure MTask where
  oldPath : MPath
  fileName : MName
deriving DecidableEq

/-- The result of a run: final state, per-record outcomes in order, and whether
an unhandled exception aborted the run early. -/
structure RunResult where
  state : RunState
  outcomes : List Outcome
  aborted : Bool
deriving DecidableEq

def timeoutDir (base : List Char) : List Char := base ++ "/timeout".toList

def validDir (base : List Char) : List Char := base ++ "/valid".toList

def invalidDir (base : List Char) : List Char := base ++ "/invalid".toList

/-- shutil.move wrapped in try/except: on failure (or missing source) the
filesystem is unchanged and the run continues. -/
def tryMove (env : Env) (fs : FS) (src dst : MPath) : FS :=
  if !fsExists fs src || env.moveFail src dst then fs else renameFile fs src dst

/-- unlink wrapped in try/except: on failure the filesystem is unchanged. -/
def tryUnlink (env : Env) (fs : FS) (p : MPath) : FS :=
  if !fsExists fs p || env.unlinkFail p then fs else removeFile fs p

/-- The shared invalid-file block: move to invalid/ in move mode (wrapped),
delete in destructive mode (wrapped). -/
def rejectFile (env : Env) (moveMode : Bool) (base : List Char) (fs : FS)
    (p : MPath) : FS :=
  if moveMode then
    tryMove env fs p (next_free_name fs ⟨invalidDir base, p.stem, p.ext⟩)
  else tryUnlink env fs p

/-- One loop iteration of rename_media_files (validate_media.py): classify,
then validate in the pool with timeout, then act. The classifier's rename and
the destructive-mode accept rename are unwrapped: their errors propagate. -/
def processPool (env : Env) (moveMode : Bool) (base : List Char)
    (st : RunState) (t : MTask) : RunState × PRes Outcome :=
  match detect_media_and_normalize_suffix env st.fs t.oldPath with
  | (fs1, PRes.raised e) => ({ st with fs := fs1 }, PRes.raised e)
  | (fs1, PRes.ok none) =>
    ({ st with
        fs := rejectFile env moveMode base fs1 t.oldPath,
        invalidCount := st.invalidCount + 1 }, PRes.ok Outcome.rejected)
  | (fs1, PRes.ok (some norm)) =>
    match is_valid_media env fs1 norm with
    | none =>
      ({ st with
          fs := tryMove env fs1 norm
            (next_free_name fs1 ⟨timeoutDir base, norm.stem, norm.ext⟩),
          skippedTimeout := st.skippedTimeout + 1,
          validatorCalls := st.validatorCalls + 1 }, PRes.ok Outcome.quarantined)
    | some false =>
      ({ st with
          fs := rejectFile env moveMode base fs1 norm,
          invalidCount := st.invalidCount + 1,
          validatorCalls := st.validatorCalls + 1 }, PRes.ok Outcome.rejected)
    | some true =>
      let target := poolTargetName env fs1 norm t.fileName
      if moveMode then
        ({ st with
            fs := tryMove env fs1 norm
              (next_free_name fs1 ⟨validDir base, target.stem, target.ext⟩),
            validCount := st.validCount + 1,
            validatorCalls := st.validatorCalls + 1 }, PRes.ok Outcome.accepted)
      else
        let newPath := next_free_name fs1 ⟨norm.dir, target.stem, target.ext⟩
        if env.renameFail norm newPath then
          ({ st with
              validCount := st.validCount + 1,
              validatorCalls := st.validatorCalls + 1 }, PRes.raised Err.opFail)
        else
          ({ st with
              fs := renameFile fs1 norm newPath,
              validCount := st.validCount + 1,
              validatorCalls := st.validatorCalls + 1 }, PRes.ok Outcome.accepted)

/-- One loop iteration of rename_media_files (validate_media_single.py):
a vanished source detected after classification is logged and skipped; a valid
file keeps its normalized name (collision-resolved) instead of the manifest
name. -/
def processSingle (env : Env) (moveMode : Bool) (base : List Char)
    (st : RunState) (t : MTask) : RunState × PRes Outcome :=
  match detect_media_and_normalize_suffix_single env st.fs t.oldPath with
  | (fs1, PRes.raised e) => ({ st with fs := fs1 }, PRes.raised e)
  | (fs1, PRes.ok none) =>
    if !fsExists fs1 t.oldPath then
      ({ st with fs := fs1 }, PRes.ok Outcome.skippedVanished)
    else
      ({ st with
          fs := rejectFile env moveMode base fs1 t.oldPath,
          invalidCount := st.invalidCount + 1 }, PRes.ok Outcome.rejected)
  | (fs1, PRes.ok (some norm)) =>
    match is_valid_media_single env fs1 norm with
    | none =>
      ({ st with
          fs := tryMove env fs1 norm
            (next_free_name fs1 ⟨timeoutDir base, norm.stem, norm.ext⟩),
          skippedTimeout := st.skippedTimeout + 1,
          validatorCalls := st.validatorCalls + 1 }, PRes.ok Outcome.quarantined)
    | some false =>
      ({ st with
          fs := rejectFile env moveMode base fs1 norm,
          invalidCount := st.invalidCount + 1,
          validatorCalls := st.validatorCalls + 1 }, PRes.ok Outcome.rejected)
    | some true =>
      if moveMode then
        ({ st with
            fs := tryMove env fs1 norm
              (next_free_name fs1 ⟨validDir base, norm.stem, norm.ext⟩),
            validCount := st.validCount + 1,
            validatorCalls := st.validatorCalls + 1 }, PRes.ok Outcome.accepted)
      else
        let newPath := next_free_name fs1 ⟨norm.dir, norm.stem, norm.ext⟩
        if env.renameFail norm newPath then
          ({ st with
              validCount := st.validCount + 1,
              validatorCalls := st.validatorCalls + 1 }, PRes.raised Err.opFail)
        else
          ({ st with
              fs := renameFile fs1 norm newPath,
              validCount := st.validCount + 1,
              validatorCalls := st.validatorCalls + 1 }, PRes.ok Outcome.accepted)

/-- The per-record driver loop: process records in order; an unhandled
exception aborts the run, dropping the remaining records. -/
def runLoop (process : RunState → MTask → RunState × PRes Outcome) :
    RunState → List MTask → RunResult
  | st, [] => ⟨st, [], false⟩
  | st, t :: ts =>
    match process st t with
    | (st1, PRes.ok o) =>
      let r := runLoop process st1 ts
      ⟨r.state, o :: r.outcomes, r.aborted⟩
    | (st1, PRes.raised _) => ⟨st1, [], true⟩

/-- One MediaFiles entry of the manifest JSON. -/
structure MediaFileEntry where
  fileName : Option MName
deriving DecidableEq

/-- One Media entry of the manifest JSON. -/
structure MediaEntry where
  relPath : Option MPath
  mediaFiles : List MediaFileEntry
deriving DecidableEq

/-- One case of the manifest JSON's value array. -/
structure CaseEntry where
  media : List MediaEntry
deriving DecidableEq

/-- The collection loop of rename_media_files: entries with a missing path,
empty MediaFiles, missing FileName, or a nonexistent file are skipped. -/
def collectTasks (fs : FS) (value : List CaseEntry) : List MTask :=
  value.flatMap fun cs => cs.media.filterMap fun m =>
    match m.relPath, m.mediaFiles with
    | some rp, f0 :: _ =>
      match f0.fileName with
      | some fn => if fsExists fs rp then some ⟨rp, fn⟩ else none
      | none => none
    | _, _ => none

def initState (fs : FS) : RunState := ⟨fs, 0, 0, 0, 0⟩

/-- rename_media_files (validate_media.py): collect records, then drive each
through classify, pool-validate, and the filesystem action. -/
def rename_media_files (env : Env) (base : List Char) (moveMode : Bool)
    (fs : FS) (value : List CaseEntry) : RunResult :=
  runLoop (processPool env moveMode base) (initState fs) (collectTasks fs value)

/-- rename_media_files (validate_media_single.py): sequential variant. -/
def rename_media_files_single (env : Env) (base : List Char) (moveMode : Bool)
    (fs : FS) (value : List CaseEntry) : RunResult :=
  runLoop (processSingle env moveMode base) (initState fs) (collectTasks fs value)

/-! Helper lemmas about the classifier and the transition step. -/

theorem occupied_candidates_le_length (fs : FS) (p : MPath) (k : Nat)
    (hocc : ∀ c, c < k → fsExists fs (candidate p (c + 1)) = true) :
    k ≤ fs.length := by
  have hinj : Function.Injective (fun i : Nat => candidate p (i + 1)) := by
    intro a b hab
    have := candidate_inj p hab
    omega
  have hnodup : ((List.range k).map fun i => candidate p (i + 1)).Nodup :=
    (List.nodup_range _).map hinj
  have hsub : ((List.range k).map fun i => candidate p (i + 1)) ⊆ pathsOf fs := by
    intro x hx
    simp only [List.mem_map, List.mem_range] at hx
    obtain ⟨i, hi, rfl⟩ := hx
    exact (fsExists_iff_mem fs _).mp (hocc i hi)
  have hlen := (hnodup.subperm hsub).length_le
  simp only [List.length_map, List.length_range, pathsOf] at hlen
  exact hlen

theorem detect_none_of_unrecognized (env : Env) (fs : FS) (p : MPath)
    (himg : detect_image_format env fs p = none)
    (hvid : lowerExt p ∉ known_video_suffixes) :
    detect_media_and_normalize_suffix env fs p = (fs, PRes.ok none) := by
  rw [detect_media_and_normalize_suffix, himg]
  simp only [if_neg hvid]

theorem detect_none_of_video_probe_not_ok (env : Env) (fs : FS) (p : MPath)
    (himg : detect_image_format env fs p = none)
    (hvid : lowerExt p ∈ known_video_suffixes)
    (hprobe : is_valid_video_ffprobe env fs p ≠ some true) :
    detect_media_and_normalize_suffix env fs p = (fs, PRes.ok none) := by
  rcases hp : is_valid_video_ffprobe env fs p with _ | b
  · rw [detect_media_and_normalize_suffix, himg, hp, if_pos hvid]
  · cases b
    · rw [detect_media_and_normalize_suffix, himg, hp, if_pos hvid]
    · exact absurd hp hprobe

theorem detect_some_of_video_probe_ok (env : Env) (fs : FS) (p : MPath)
    (himg : detect_image_format env fs p = none)
    (hvid : lowerExt p ∈ known_video_suffixes)
    (hprobe : is_valid_video_ffprobe env fs p = some true) :
    detect_media_and_normalize_suffix env fs p = (fs, PRes.ok (some p)) := by
  rw [detect_media_and_normalize_suffix, himg]
  simp only [if_pos hvid, hprobe]

theorem processPool_reject_of_detect_none (env : Env) (moveMode : Bool)
    (base : List Char) (st : RunState) (t : MTask)
    (hdet : detect_media_and_normalize_suffix env st.fs t.oldPath =
      (st.fs, PRes.ok none)) :
    processPool env moveMode base st t =
      ({ st with
          fs := rejectFile env moveMode base st.fs t.oldPath,
          invalidCount := st.invalidCount + 1 }, PRes.ok Outcome.rejected) := by
  rw [processPool, hdet]

/-- C7: next_free_name returns the desired path unchanged when no file exists
there; and when the file exists together with exactly the probe candidates
stem_1 .. stem_k, it probes them in increasing order and returns stem_(k+1),
the first candidate that does not exist. -/
theorem claim7_next_free_name (fs : FS) (p : MPath) (k : Nat)
    (hocc : ∀ c, c < k → fsExists fs (candidate p (c + 1)) = true)
    (hfree : fsExists fs (candidate p (k + 1)) = false) :
    (fsExists fs p = false → next_free_name fs p = p) ∧
    (fsExists fs p = true → next_free_name fs p = candidate p (k + 1)) := by
  constructor
  · intro h
    rw [next_free_name, h]
    simp
  · intro h
    rw [next_free_name, h]
    simp only [if_true]
    have hk : k ≤ fs.length := occupied_candidates_le_length fs p k hocc
    have hspec := nextFreeAux_spec fs p (fs.length + 1) 1 k (by omega)
      (fun j hj => by
        have := hocc j hj
        rwa [show (1 : Nat) + j = j + 1 by omega])
      (by rwa [show (1 : Nat) + k = k + 1 by omega])
    rw [hspec, show (1 : Nat) + k = k + 1 by omega]

theorem image_format_to_suffix_cases (fmt e : List Char)
    (h : image_format_to_suffix fmt = some e) :
    e = ".jpg".toList ∨ e = ".png".toList ∨ e = ".tif".toList ∨ e = ".bmp".toList ∨
    e = ".gif".toList ∨ e = ".webp".toList ∨ e = ".heic".toList := by
  simp only [image_format_to_suffix] at h
  split_ifs at h <;> simp_all

theorem canonical_ext_lower (fmt e : List Char)
    (h : image_format_to_suffix fmt = some e) : e.map Char.toLower = e := by
  rcases image_format_to_suffix_cases fmt e h with h | h | h | h | h | h | h <;>
    subst h <;> decide

theorem canonical_ext_not_thumb (fmt e : List Char)
    (h : image_format_to_suffix fmt = some e) :
    e ≠ ".thumb".toList ∧ e ≠ ".thm".toList := by
  rcases image_format_to_suffix_cases fmt e h with h | h | h | h | h | h | h <;>
    subst h <;> exact ⟨by decide, by decide⟩

/-! Shared concrete fixtures for witnesses and counterexamples. -/

/-- A host with ffprobe present, pillow-heif absent, and no failure events. -/
def envStd : Env :=
  ⟨true, false, fun _ => false, fun _ => false, fun _ _ => false,
   fun _ _ => false, fun _ => false⟩

/-- A host without ffprobe. -/
def envNoProbe : Env :=
  ⟨false, false, fun _ => false, fun _ => false, fun _ _ => false,
   fun _ _ => false, fun _ => false⟩

/-- A host where every source file vanishes right before a classifier rename. -/
def envVanish : Env :=
  ⟨true, false, fun _ => false, fun _ => true, fun _ _ => false,
   fun _ _ => false, fun _ => false⟩

/-- A host where every unwrapped rename raises (e.g. a permission error). -/
def envRenameFail : Env :=
  ⟨true, false, fun _ => false, fun _ => false, fun _ _ => true,
   fun _ _ => false, fun _ => false⟩

def contentVideoOk : Content := ⟨none, false, ProbeRes.ok⟩

def contentPng : Content := ⟨some "PNG".toList, true, ProbeRes.bad⟩

def contentJunk : Content := ⟨none, false, ProbeRes.bad⟩

def contentHeic : Content := ⟨some "HEIC".toList, true, ProbeRes.bad⟩

def baseW : List Char := "b".toList

def pathMp4 : MPath := ⟨baseW, "v".toList, ".mp4".toList⟩

def pathJpgPng : MPath := ⟨baseW, "photo".toList, ".jpg".toList⟩

def pathNormC2 : MPath := ⟨baseW, "(jpg)photo".toList, ".png".toList⟩

def pathHeic : MPath := ⟨baseW, "h".toList, ".heic".toList⟩

def pathThumb : MPath := ⟨baseW, "t".toList, ".thumb".toList⟩

def pathThumbTagged : MPath := ⟨baseW, "(thumb)t".toList, ".jpg".toList⟩

def nameEvidence : MName := ⟨"evidence1".toList, ".jpg".toList⟩

def nameMp4 : MName := ⟨"v".toList, ".mp4".toList⟩

/-- A one-record manifest. -/
def mkManifest (p : MPath) (n : MName) : List CaseEntry :=
  [⟨[⟨some p, [⟨some n⟩]⟩]⟩]

/-- C5: the pool validator and the sequential validator agree whenever the
video probe actually yields a result (and the pool result is fetched without a
pool timeout); this is the amended equivalence. -/
theorem claim5_validators_agree (env : Env) (fs : FS) (p : MPath)
    (hpt : env.poolTimeout p = false)
    (hvid : lowerExt p ∈ known_video_suffixes → is_valid_video_ffprobe env fs p ≠ none) :
    is_valid_media env fs p = is_valid_media_single env fs p := by
  by_cases h1 : lowerExt p ∈ known_image_suffixes env
  · simp [is_valid_media, is_valid_media_single, check_media_worker, hpt, h1]
  · by_cases h2 : lowerExt p ∈ known_video_suffixes
    · rcases hres : is_valid_video_ffprobe env fs p with _ | b
      · exact absurd hres (hvid h2)
      · cases b <;>
          simp [is_valid_media, is_valid_media_single, check_media_worker, hpt, h1, h2, hres]
    · simp [is_valid_media, is_valid_media_single, check_media_worker, hpt, h1, h2]

/-- C5 counterexample: for a .mp4 file on a host without ffprobe (fixed decoder
results, no pool timeout), the pool validator answers Invalid (some false)
while the sequential validator answers Indeterminate (none): the two variants
are not equivalent. -/
theorem claim5_counterexample :
    is_valid_media envNoProbe [(pathMp4, contentVideoOk)] pathMp4 = some false ∧
    is_valid_media_single envNoProbe [(pathMp4, contentVideoOk)] pathMp4 = none := by
  decide

/-- C5 witness: on a host with ffprobe and a probe that answers, the two
validators agree on a concrete video file. -/
theorem claim5_witness :
    is_valid_media envStd [(pathMp4, contentVideoOk)] pathMp4 =
      is_valid_media_single envStd [(pathMp4, contentVideoOk)] pathMp4 :=
  claim5_validators_agree envStd [(pathMp4, contentVideoOk)] pathMp4 rfl
    (fun _ => by decide)

/-- C2 counterexample: in the Scenario A run (a .jpg file with PNG content,
manifest name evidence1.jpg, Valid, destructive mode, pool variant) the
accepted terminal name is evidence1.jpg, and no file named evidence1.png
exists afterward: the detected-content extension is not applied to the
manifest stem. -/
theorem claim2_counterexample :
    (rename_media_files envStd baseW false [(pathJpgPng, contentPng)]
      (mkManifest pathJpgPng nameEvidence)).state.fs =
      [(⟨baseW, "evidence1".toList, ".jpg".toList⟩, contentPng)] ∧
    fsExists (rename_media_files envStd baseW false [(pathJpgPng, contentPng)]
      (mkManifest pathJpgPng nameEvidence)).state.fs
      ⟨baseW, "evidence1".toList, ".png".toList⟩ = false := by decide

/-- C2 (amended): the file is first renamed by normalization to
(jpg)photo.png; its accepted terminal name is then the manifest name verbatim
(evidence1.jpg) in the pool variant — the detected extension is not
substituted because .png is a known image suffix — while the sequential
variant ignores the manifest name and keeps the normalized name ((jpg)photo.png
under valid/ in Segregated mode, and (jpg)photo_1.png in Destructive mode
because the desired name collides with the file itself). -/
theorem claim2_scenario_a :
    detect_media_and_normalize_suffix envStd [(pathJpgPng, contentPng)] pathJpgPng =
      ([(pathNormC2, contentPng)], PRes.ok (some pathNormC2)) ∧
    (rename_media_files envStd baseW false [(pathJpgPng, contentPng)]
      (mkManifest pathJpgPng nameEvidence)).state.fs =
      [(⟨baseW, "evidence1".toList, ".jpg".toList⟩, contentPng)] ∧
    (rename_media_files envStd baseW false [(pathJpgPng, contentPng)]
      (mkManifest pathJpgPng nameEvidence)).outcomes = [Outcome.accepted] ∧
    (rename_media_files envStd baseW true [(pathJpgPng, contentPng)]
      (mkManifest pathJpgPng nameEvidence)).state.fs =
      [(⟨validDir baseW, "evidence1".toList, ".jpg".toList⟩, contentPng)] ∧
    (rename_media_files_single envStd baseW false [(pathJpgPng, contentPng)]
      (mkManifest pathJpgPng nameEvidence)).state.fs =
      [(⟨baseW, "(jpg)photo_1".toList, ".png".toList⟩, contentPng)] ∧
    (rename_media_files_single envStd baseW true [(pathJpgPng, contentPng)]
      (mkManifest pathJpgPng nameEvidence)).state.fs =
      [(⟨validDir baseW, "(jpg)photo".toList, ".png".toList⟩, contentPng)] := by decide

/-- C8: a record that is neither content-recognized as an image nor carries a
known video extension goes straight to Rejected; is_valid_media is never
invoked for it (the validator call count is unchanged). -/
theorem claim8_unrecognized_rejected (env : Env) (moveMode : Bool)
    (base : List Char) (st : RunState) (t : MTask)
    (himg : detect_image_format env st.fs t.oldPath = none)
    (hvid : lowerExt t.oldPath ∉ known_video_suffixes) :
    (processPool env moveMode base st t).2 = PRes.ok Outcome.rejected ∧
    (processPool env moveMode base st t).1.validatorCalls = st.validatorCalls ∧
    (processPool env moveMode base st t).1.invalidCount = st.invalidCount + 1 := by
  rw [processPool_reject_of_detect_none env moveMode base st t
    (detect_none_of_unrecognized env st.fs t.oldPath himg hvid)]
  exact ⟨rfl, rfl, rfl⟩

def pathXyz : MPath := ⟨baseW, "u".toList, ".xyz".toList⟩

def nameXyz : MName := ⟨"u".toList, ".xyz".toList⟩

/-- C8 witness: a .xyz file with unrecognizable content is rejected without
touching the validator call count. -/
theorem claim8_witness :
    (processPool envStd false baseW (initState [(pathXyz, contentJunk)])
      ⟨pathXyz, nameXyz⟩).2 = PRes.ok Outcome.rejected ∧
    (processPool envStd false baseW (initState [(pathXyz, contentJunk)])
      ⟨pathXyz, nameXyz⟩).1.validatorCalls =
      (initState [(pathXyz, contentJunk)]).validatorCalls ∧
    (processPool envStd false baseW (initState [(pathXyz, contentJunk)])
      ⟨pathXyz, nameXyz⟩).1.invalidCount =
      (initState [(pathXyz, contentJunk)]).invalidCount + 1 :=
  claim8_unrecognized_rejected envStd false baseW (initState [(pathXyz, contentJunk)])
    ⟨pathXyz, nameXyz⟩ (by decide) (by decide)

def pathStem : MPath := ⟨baseW, "x".toList, ".jpg".toList⟩

def fsC7 : FS :=
  [(pathStem, contentJunk), (candidate pathStem 1, contentJunk),
   (candidate pathStem 2, contentJunk)]

/-- C7 witness: with x.jpg, x_1.jpg and x_2.jpg present, resolving x.jpg
returns x_3.jpg. -/
theorem claim7_witness : next_free_name fsC7 pathStem = candidate pathStem 3 :=
  (claim7_next_free_name fsC7 pathStem 2 (by decide) (by decide)).2 (by decide)

/-- C6 (amended): the pool variant's normalize step is idempotent — a second
application to the returned path performs no rename and returns it unchanged —
and so is the sequential variant's on every non-thumbnail input; the thumbnail
special case is excluded (see the counterexample: a tagged thumbnail whose
bytes are not a decodable image is classified not-media on the second
application). -/
theorem claim6_normalize_idempotent :
    (∀ env fs p fs1 p1,
      detect_media_and_normalize_suffix env fs p = (fs1, PRes.ok (some p1)) →
      detect_media_and_normalize_suffix env fs1 p1 = (fs1, PRes.ok (some p1))) ∧
    (∀ env fs p fs1 p1,
      lowerExt p ≠ ".thumb".toList → lowerExt p ≠ ".thm".toList →
      detect_media_and_normalize_suffix_single env fs p = (fs1, PRes.ok (some p1)) →
      detect_media_and_normalize_suffix_single env fs1 p1 = (fs1, PRes.ok (some p1))) := by
  constructor
  · intro env fs p fs1 p1 h
    rcases hfmt : detect_image_format env fs p with _ | fmt
    · by_cases hv : lowerExt p ∈ known_video_suffixes
      · rcases hres : is_valid_video_ffprobe env fs p with _ | b
        · rw [detect_none_of_video_probe_not_ok env fs p hfmt hv (by simp [hres])] at h
          simp at h
        · cases b
          · rw [detect_none_of_video_probe_not_ok env fs p hfmt hv (by simp [hres])] at h
            simp at h
          · rw [detect_some_of_video_probe_ok env fs p hfmt hv hres] at h
            simp only [Prod.mk.injEq, PRes.ok.injEq, Option.some.injEq] at h
            obtain ⟨h1, h2⟩ := h
            subst h1
            subst h2
            exact detect_some_of_video_probe_ok env fs p hfmt hv hres
      · rw [detect_none_of_unrecognized env fs p hfmt hv] at h
        simp at h
    · rcases hmap : image_format_to_suffix fmt with _ | newExt
      · have hd : detect_media_and_normalize_suffix env fs p = (fs, PRes.ok (some p)) := by
          simp only [detect_media_and_normalize_suffix, hfmt, hmap]
        rw [hd] at h
        simp only [Prod.mk.injEq, PRes.ok.injEq, Option.some.injEq] at h
        obtain ⟨h1, h2⟩ := h
        subst h1
        subst h2
        exact hd
      · by_cases hsuf : lowerExt p = newExt
        · have hd : detect_media_and_normalize_suffix env fs p = (fs, PRes.ok (some p)) := by
            simp only [detect_media_and_normalize_suffix, hfmt, hmap, if_pos hsuf]
          rw [hd] at h
          simp only [Prod.mk.injEq, PRes.ok.injEq, Option.some.injEq] at h
          obtain ⟨h1, h2⟩ := h
          subst h1
          subst h2
          exact hd
        · simp only [detect_media_and_normalize_suffix, hfmt, hmap, if_neg hsuf] at h
          cases hvan : env.vanishes p with
          | true =>
            simp only [hvan] at h
            simp at h
          | false =>
            simp only [hvan, Bool.false_eq_true, if_false] at h
            set np := next_free_name fs
              ⟨p.dir, '(' :: (oldExtTag (lowerExt p) ++ ')' :: p.stem), newExt⟩ with hnp
            cases hrf : env.renameFail p np with
            | true =>
              simp only [hrf] at h
              simp at h
            | false =>
              simp only [hrf, Bool.false_eq_true, if_false] at h
              simp only [Prod.mk.injEq, PRes.ok.injEq, Option.some.injEq] at h
              obtain ⟨h1, h2⟩ := h
              subst h1
              subst h2
              have hfree : fsExists fs np = false := by
                rw [hnp]
                exact next_free_not_exists fs _
              have hlk : lookupContent (renameFile fs p np) np = lookupContent fs p :=
                lookupContent_renameFile fs p np hfree
              have hfmtA := hfmt
              rw [detect_image_format] at hfmtA
              have hfmt2 : detect_image_format env (renameFile fs p np) np = some fmt := by
                rw [detect_image_format, hlk]
                exact hfmtA
              have hext : np.ext = newExt := by
                rw [hnp]
                exact next_free_name_ext fs _
              have hlow : lowerExt np = newExt := by
                rw [lowerExt, hext]
                exact canonical_ext_lower fmt newExt hmap
              simp only [detect_media_and_normalize_suffix, hfmt2, hmap, hlow,
                eq_self_iff_true, if_true]
  · intro env fs p fs1 p1 hta htb h
    have hcond : ¬(lowerExt p = ".thumb".toList ∨ lowerExt p = ".thm".toList) := by
      rintro (hc | hc)
      · exact hta hc
      · exact htb hc
    rcases hfmt : detect_image_format env fs p with _ | fmt
    · by_cases hv : lowerExt p ∈ known_video_suffixes
      · rcases hres : is_valid_video_ffprobe env fs p with _ | b
        · simp only [detect_media_and_normalize_suffix_single, if_neg hcond, hfmt,
            if_pos hv, hres] at h
          simp at h
        · cases b
          · simp only [detect_media_and_normalize_suffix_single, if_neg hcond, hfmt,
              if_pos hv, hres] at h
            simp at h
          · simp only [detect_media_and_normalize_suffix_single, if_neg hcond, hfmt,
              if_pos hv, hres] at h
            simp only [Prod.mk.injEq, PRes.ok.injEq, Option.some.injEq] at h
            obtain ⟨h1, h2⟩ := h
            subst h1
            subst h2
            simp only [detect_media_and_normalize_suffix_single, if_neg hcond, hfmt,
              if_pos hv, hres]
      · simp only [detect_media_and_normalize_suffix_single, if_neg hcond, hfmt,
          if_neg hv] at h
        simp at h
    · rcases hmap : image_format_to_suffix (fmt.map Char.toUpper) with _ | newExt
      · have hd : detect_media_and_normalize_suffix_single env fs p =
            (fs, PRes.ok (some p)) := by
          simp only [detect_media_and_normalize_suffix_single, if_neg hcond, hfmt, hmap]
        rw [hd] at h
        simp only [Prod.mk.injEq, PRes.ok.injEq, Option.some.injEq] at h
        obtain ⟨h1, h2⟩ := h
        subst h1
        subst h2
        exact hd
      · have hlower : newExt.map Char.toLower = newExt :=
          canonical_ext_lower (fmt.map Char.toUpper) newExt hmap
        by_cases hsuf : lowerExt p = newExt
        · have hd : detect_media_and_normalize_suffix_single env fs p =
              (fs, PRes.ok (some p)) := by
            simp only [detect_media_and_normalize_suffix_single, if_neg hcond, hfmt,
              hmap, hlower, if_pos hsuf]
          rw [hd] at h
          simp only [Prod.mk.injEq, PRes.ok.injEq, Option.some.injEq] at h
          obtain ⟨h1, h2⟩ := h
          subst h1
          subst h2
          exact hd
        · have hsuf2 : ¬(lowerExt p = newExt.map Char.toLower) := by
            rw [hlower]
            exact hsuf
          simp only [detect_media_and_normalize_suffix_single, if_neg hcond, hfmt,
            hmap, if_neg hsuf2] at h
          cases hvan : env.vanishes p with
          | true =>
            simp only [hvan] at h
            simp at h
          | false =>
            simp only [hvan, Bool.false_eq_true, if_false] at h
            set np := next_free_name fs
              ⟨p.dir, '(' :: (oldExtTag (lowerExt p) ++ ')' :: p.stem), newExt⟩ with hnp
            cases hrf : env.renameFail p np with
            | true =>
              simp only [hrf] at h
              simp at h
            | false =>
              simp only [hrf, Bool.false_eq_true, if_false] at h
              simp only [Prod.mk.injEq, PRes.ok.injEq, Option.some.injEq] at h
              obtain ⟨h1, h2⟩ := h
              subst h1
              subst h2
              have hfree : fsExists fs np = false := by
                rw [hnp]
                exact next_free_not_exists fs _
              have hlk : lookupContent (renameFile fs p np) np = lookupContent fs p :=
                lookupContent_renameFile fs p np hfree
              have hfmtA := hfmt
              rw [detect_image_format] at hfmtA
              have hfmt2 : detect_image_format env (renameFile fs p np) np = some fmt := by
                rw [detect_image_format, hlk]
                exact hfmtA
              have hext : np.ext = newExt := by
                rw [hnp]
                exact next_free_name_ext fs _
              have hlow : lowerExt np = newExt := by
                rw [lowerExt, hext]
                exact canonical_ext_lower (fmt.map Char.toUpper) newExt hmap
              have hnt := canonical_ext_not_thumb (fmt.map Char.toUpper) newExt hmap
              have hcond2 : ¬(newExt = ".thumb".toList ∨ newExt = ".thm".toList) := by
                rintro (hc | hc)
                · exact hnt.1 hc
                · exact hnt.2 hc
              simp only [detect_media_and_normalize_suffix_single, if_neg hcond2, hfmt2,
                hmap, hlower, hlow, eq_self_iff_true, if_true]

def fsThumb : FS := [(pathThumb, contentJunk)]

def fsThumbTagged : FS := [(pathThumbTagged, contentJunk)]

/-- C6 counterexample: normalizing t.thumb (whose bytes are not a decodable
image) renames it to (thumb)t.jpg, but a second application of the normalize
step to that returned path does not return it unchanged — it classifies the
file as not-media (None). -/
theorem claim6_counterexample :
    detect_media_and_normalize_suffix_single envStd fsThumb pathThumb =
      (fsThumbTagged, PRes.ok (some pathThumbTagged)) ∧
    detect_media_and_normalize_suffix_single envStd fsThumbTagged pathThumbTagged =
      (fsThumbTagged, PRes.ok none) := by decide

/-- C6 witness: a second application of the pool normalize step to a concrete
valid video file returns the same path and filesystem. -/
theorem claim6_witness :
    detect_media_and_normalize_suffix envStd [(pathMp4, contentVideoOk)] pathMp4 =
      ([(pathMp4, contentVideoOk)], PRes.ok (some pathMp4)) :=
  claim6_normalize_idempotent.1 envStd [(pathMp4, contentVideoOk)] pathMp4
    [(pathMp4, contentVideoOk)] pathMp4 (by decide)

theorem processPool_quarantine_of_indeterminate (env : Env) (moveMode : Bool)
    (base : List Char) (st : RunState) (t : MTask) (norm : MPath)
    (hdet : detect_media_and_normalize_suffix env st.fs t.oldPath =
      (st.fs, PRes.ok (some norm)))
    (hval : is_valid_media env st.fs norm = none) :
    processPool env moveMode base st t =
      ({ st with
          fs := tryMove env st.fs norm
            (next_free_name st.fs ⟨timeoutDir base, norm.stem, norm.ext⟩),
          skippedTimeout := st.skippedTimeout + 1,
          validatorCalls := st.validatorCalls + 1 }, PRes.ok Outcome.quarantined) := by
  simp only [processPool, hdet, hval]

/-- The observable effects of the Rejected transition on one record of the
pool pipeline: outcome, counters, and the filesystem action per run mode. -/
def rejectedEffects (env : Env) (moveMode : Bool) (base : List Char)
    (st : RunState) (t : MTask) : Prop :=
  (processPool env moveMode base st t).2 = PRes.ok Outcome.rejected ∧
  (processPool env moveMode base st t).1.invalidCount = st.invalidCount + 1 ∧
  (processPool env moveMode base st t).1.skippedTimeout = st.skippedTimeout ∧
  (moveMode = false → env.unlinkFail t.oldPath = false →
    fsExists (processPool env moveMode base st t).1.fs t.oldPath = false) ∧
  (moveMode = true →
    env.moveFail t.oldPath
      (next_free_name st.fs ⟨invalidDir base, t.oldPath.stem, t.oldPath.ext⟩) = false →
    ∃ q : MPath, q.dir = invalidDir base ∧
      fsExists (processPool env moveMode base st t).1.fs q = true)

/-- The observable effects of the Quarantined transition on one record whose
normalized path is its own source path (as for video files). -/
def quarantinedEffects (env : Env) (moveMode : Bool) (base : List Char)
    (st : RunState) (t : MTask) : Prop :=
  (processPool env moveMode base st t).2 = PRes.ok Outcome.quarantined ∧
  (processPool env moveMode base st t).1.skippedTimeout = st.skippedTimeout + 1 ∧
  (processPool env moveMode base st t).1.invalidCount = st.invalidCount ∧
  (env.moveFail t.oldPath
      (next_free_name st.fs ⟨timeoutDir base, t.oldPath.stem, t.oldPath.ext⟩) = false →
    ∃ q : MPath, q.dir = timeoutDir base ∧
      fsExists (processPool env moveMode base st t).1.fs q = true)

theorem rejectedEffects_of_detect_none (env : Env) (moveMode : Bool)
    (base : List Char) (st : RunState) (t : MTask)
    (hex : fsExists st.fs t.oldPath = true)
    (hdet : detect_media_and_normalize_suffix env st.fs t.oldPath =
      (st.fs, PRes.ok none)) :
    rejectedEffects env moveMode base st t := by
  have hproc := processPool_reject_of_detect_none env moveMode base st t hdet
  refine ⟨by rw [hproc], by rw [hproc], by rw [hproc], ?_, ?_⟩
  · intro hm hu
    rw [hproc]
    subst hm
    simp only [rejectFile, if_neg (by simp : ¬(False : Prop))]
    simp [tryUnlink, hex, hu, fsExists_removeFile_self]
  · intro hm hmf
    rw [hproc]
    subst hm
    refine ⟨next_free_name st.fs ⟨invalidDir base, t.oldPath.stem, t.oldPath.ext⟩,
      next_free_name_dir st.fs _, ?_⟩
    have hfs : rejectFile env true base st.fs t.oldPath =
        renameFile st.fs t.oldPath
          (next_free_name st.fs ⟨invalidDir base, t.oldPath.stem, t.oldPath.ext⟩) := by
      simp [rejectFile, tryMove, hex, hmf]
    simp only [hfs]
    exact fsExists_renameFile_dst st.fs t.oldPath _ hex

/-- C1 (amended): a Video-classified file whose probe yields no result
(ffprobe unavailable, or a probe timeout) is classified not-media during
pre-normalization and Rejected — deleted in Destructive mode, moved to
invalid/ in Segregated mode, counted in the rejected counter — and never
quarantined; Indeterminate/timeout-quarantine arises only from a pool timeout
in the main validation after the pre-normalization probe succeeded, and then
the file is moved under timeout/ (never deleted), in both run modes. -/
theorem claim1_video_capability :
    (∀ (env : Env) (moveMode : Bool) (base : List Char) (st : RunState)
      (t : MTask) (c : Content),
      lookupContent st.fs t.oldPath = some c →
      pillowFormat env c = none →
      lowerExt t.oldPath ∈ known_video_suffixes →
      is_valid_video_ffprobe env st.fs t.oldPath = none →
      rejectedEffects env moveMode base st t) ∧
    (∀ (env : Env) (moveMode : Bool) (base : List Char) (st : RunState)
      (t : MTask) (c : Content),
      lookupContent st.fs t.oldPath = some c →
      pillowFormat env c = none →
      lowerExt t.oldPath ∈ known_video_suffixes →
      is_valid_video_ffprobe env st.fs t.oldPath = some true →
      env.poolTimeout t.oldPath = true →
      quarantinedEffects env moveMode base st t) := by
  constructor
  · intro env moveMode base st t c hlk hpf hvid hprobe
    have himg : detect_image_format env st.fs t.oldPath = none := by
      rw [detect_image_format, hlk]
      exact hpf
    exact rejectedEffects_of_detect_none env moveMode base st t
      (lookupContent_isSome_fsExists st.fs t.oldPath c hlk)
      (detect_none_of_video_probe_not_ok env st.fs t.oldPath himg hvid (by simp [hprobe]))
  · intro env moveMode base st t c hlk hpf hvid hprobe hpt
    have himg : detect_image_format env st.fs t.oldPath = none := by
      rw [detect_image_format, hlk]
      exact hpf
    have hex : fsExists st.fs t.oldPath = true :=
      lookupContent_isSome_fsExists st.fs t.oldPath c hlk
    have hdet := detect_some_of_video_probe_ok env st.fs t.oldPath himg hvid hprobe
    have hval : is_valid_media env st.fs t.oldPath = none := by
      simp [is_valid_media, hpt]
    have hproc := processPool_quarantine_of_indeterminate env moveMode base st t
      t.oldPath hdet hval
    refine ⟨by rw [hproc], by rw [hproc], by rw [hproc], ?_⟩
    intro hmf
    rw [hproc]
    refine ⟨next_free_name st.fs ⟨timeoutDir base, t.oldPath.stem, t.oldPath.ext⟩,
      next_free_name_dir st.fs _, ?_⟩
    have hfs : tryMove env st.fs t.oldPath
        (next_free_name st.fs ⟨timeoutDir base, t.oldPath.stem, t.oldPath.ext⟩) =
        renameFile st.fs t.oldPath
          (next_free_name st.fs ⟨timeoutDir base, t.oldPath.stem, t.oldPath.ext⟩) := by
      simp [tryMove, hex, hmf]
    simp only [hfs]
    exact fsExists_renameFile_dst st.fs t.oldPath _ hex

/-- C1 counterexample: a .mp4 file with readable video content, on a host
without ffprobe, in Destructive mode: the record is Rejected (counted) and the
file is deleted; it is not Indeterminate, not quarantined, and timeout/ stays
empty — contrary to the claim. -/
theorem claim1_counterexample :
    (rename_media_files envNoProbe baseW false [(pathMp4, contentVideoOk)]
      (mkManifest pathMp4 nameMp4)).outcomes = [Outcome.rejected] ∧
    (rename_media_files envNoProbe baseW false [(pathMp4, contentVideoOk)]
      (mkManifest pathMp4 nameMp4)).state.skippedTimeout = 0 ∧
    (rename_media_files envNoProbe baseW false [(pathMp4, contentVideoOk)]
      (mkManifest pathMp4 nameMp4)).state.invalidCount = 1 ∧
    (rename_media_files envNoProbe baseW false [(pathMp4, contentVideoOk)]
      (mkManifest pathMp4 nameMp4)).state.fs = [] := by decide

/-- A host with ffprobe present but a hanging worker pool (every main-check
fetch times out). -/
def envPoolHang : Env :=
  ⟨true, false, fun _ => true, fun _ => false, fun _ _ => false,
   fun _ _ => false, fun _ => false⟩

/-- C1 witness: the rejected branch on a host without ffprobe, and the
quarantined branch under a pool timeout, on a concrete video file. -/
theorem claim1_witness :
    rejectedEffects envNoProbe false baseW
      (initState [(pathMp4, contentVideoOk)]) ⟨pathMp4, nameMp4⟩ ∧
    quarantinedEffects envPoolHang true baseW
      (initState [(pathMp4, contentVideoOk)]) ⟨pathMp4, nameMp4⟩ :=
  ⟨claim1_video_capability.1 envNoProbe false baseW
      (initState [(pathMp4, contentVideoOk)]) ⟨pathMp4, nameMp4⟩ contentVideoOk
      (by decide) rfl (by decide) (by decide),
   claim1_video_capability.2 envPoolHang true baseW
      (initState [(pathMp4, contentVideoOk)]) ⟨pathMp4, nameMp4⟩ contentVideoOk
      (by decide) rfl (by decide) (by decide) rfl⟩

/-- C10 (amended): when pillow-heif is absent, a .heic file whose bytes are
not decodable as another supported image format is classified not-media at
pre-normalization and Rejected (deleted in Destructive mode, moved to invalid/
in Segregated mode), not Indeterminate/Quarantined — the same mapping as the
absence of the video-inspection capability, which likewise yields Rejected. -/
theorem claim10_optional_capability :
    (∀ (env : Env) (moveMode : Bool) (base : List Char) (st : RunState)
      (t : MTask) (c : Content),
      env.heicSupported = false →
      lookupContent st.fs t.oldPath = some c →
      (c.imageFmt = none ∨ c.imageFmt = some "HEIC".toList) →
      lowerExt t.oldPath = ".heic".toList →
      rejectedEffects env moveMode base st t) ∧
    (∀ (env : Env) (moveMode : Bool) (base : List Char) (st : RunState)
      (t : MTask) (c : Content),
      lookupContent st.fs t.oldPath = some c →
      pillowFormat env c = none →
      lowerExt t.oldPath ∈ known_video_suffixes →
      is_valid_video_ffprobe env st.fs t.oldPath = none →
      rejectedEffects env moveMode base st t) := by
  constructor
  · intro env moveMode base st t c hheic hlk hfmt hext
    have hpf : pillowFormat env c = none := by
      rcases hfmt with hf | hf
      · simp [pillowFormat, hf]
      · simp only [pillowFormat, hf, hheic]
        decide
    have himg : detect_image_format env st.fs t.oldPath = none := by
      rw [detect_image_format, hlk]
      exact hpf
    have hvid : lowerExt t.oldPath ∉ known_video_suffixes := by
      rw [hext]
      decide
    exact rejectedEffects_of_detect_none env moveMode base st t
      (lookupContent_isSome_fsExists st.fs t.oldPath c hlk)
      (detect_none_of_unrecognized env st.fs t.oldPath himg hvid)
  · intro env moveMode base st t c hlk hpf hvid hprobe
    have himg : detect_image_format env st.fs t.oldPath = none := by
      rw [detect_image_format, hlk]
      exact hpf
    exact rejectedEffects_of_detect_none env moveMode base st t
      (lookupContent_isSome_fsExists st.fs t.oldPath c hlk)
      (detect_none_of_video_probe_not_ok env st.fs t.oldPath himg hvid (by simp [hprobe]))

def nameHeic : MName := ⟨"h".toList, ".heic".toList⟩

/-- C10 counterexample: the absence of the video-inspection capability maps a
video file to Rejected exactly like the HEIC case — both records are rejected,
neither is quarantined — refuting the claimed contrast ("unlike"). -/
theorem claim10_counterexample :
    (rename_media_files envNoProbe baseW false [(pathHeic, contentHeic)]
      (mkManifest pathHeic nameHeic)).outcomes = [Outcome.rejected] ∧
    (rename_media_files envNoProbe baseW false [(pathHeic, contentHeic)]
      (mkManifest pathHeic nameHeic)).state.skippedTimeout = 0 ∧
    (rename_media_files envNoProbe baseW false [(pathMp4, contentVideoOk)]
      (mkManifest pathMp4 nameMp4)).outcomes = [Outcome.rejected] ∧
    (rename_media_files envNoProbe baseW false [(pathMp4, contentVideoOk)]
      (mkManifest pathMp4 nameMp4)).state.skippedTimeout = 0 := by decide

/-- C10 witness: the HEIC branch and the video branch, both rejected on
concrete inputs. -/
theorem claim10_witness :
    rejectedEffects envNoProbe false baseW
      (initState [(pathHeic, contentHeic)]) ⟨pathHeic, nameHeic⟩ ∧
    rejectedEffects envNoProbe true baseW
      (initState [(pathMp4, contentVideoOk)]) ⟨pathMp4, nameMp4⟩ :=
  ⟨claim10_optional_capability.1 envNoProbe false baseW
      (initState [(pathHeic, contentHeic)]) ⟨pathHeic, nameHeic⟩ contentHeic
      rfl (by decide) (Or.inr rfl) (by decide),
   claim10_optional_capability.2 envNoProbe true baseW
      (initState [(pathMp4, contentVideoOk)]) ⟨pathMp4, nameMp4⟩ contentVideoOk
      (by decide) rfl (by decide) (by decide)⟩

/-- C4 (amended): in the sequential variant a source vanishing between the
classifier's content check and its rename is caught by the classifier, which
returns the not-media sentinel; the caller then distinguishes the vanished
source from a classification failure by re-checking existence, performs no
further filesystem action (no delete, no move), leaves all counters unchanged
and skips the record. (In the pool variant the same event raises an uncaught
error and aborts the run — see the counterexample.) -/
theorem claim4_vanished_skip (env : Env) (moveMode : Bool) (base : List Char)
    (st : RunState) (t : MTask) (c : Content) (fmt newExt : List Char)
    (hta : lowerExt t.oldPath ≠ ".thumb".toList)
    (htb : lowerExt t.oldPath ≠ ".thm".toList)
    (hlk : lookupContent st.fs t.oldPath = some c)
    (hpf : pillowFormat env c = some fmt)
    (hmap : image_format_to_suffix (fmt.map Char.toUpper) = some newExt)
    (hdiff : lowerExt t.oldPath ≠ newExt.map Char.toLower)
    (hvan : env.vanishes t.oldPath = true) :
    processSingle env moveMode base st t =
      ({ st with fs := removeFile st.fs t.oldPath },
        PRes.ok Outcome.skippedVanished) := by
  have hcond : ¬(lowerExt t.oldPath = ".thumb".toList ∨
      lowerExt t.oldPath = ".thm".toList) := by
    rintro (hc | hc)
    · exact hta hc
    · exact htb hc
  have himg : detect_image_format env st.fs t.oldPath = some fmt := by
    rw [detect_image_format, hlk]
    exact hpf
  have hdet : detect_media_and_normalize_suffix_single env st.fs t.oldPath =
      (removeFile st.fs t.oldPath, PRes.ok none) := by
    simp only [detect_media_and_normalize_suffix_single, if_neg hcond, himg, hmap,
      if_neg hdiff, hvan, eq_self_iff_true, if_true]
  simp only [processSingle, hdet, fsExists_removeFile_self, Bool.not_false,
    eq_self_iff_true, if_true]

/-- C4 counterexample: in the pool variant, a source vanishing right before
the classifier's rename makes the run abort (uncaught FileNotFoundError):
the record is not skipped, and no further records would be processed. -/
theorem claim4_counterexample :
    (rename_media_files envVanish baseW false [(pathJpgPng, contentPng)]
      (mkManifest pathJpgPng nameEvidence)).aborted = true ∧
    (rename_media_files envVanish baseW false [(pathJpgPng, contentPng)]
      (mkManifest pathJpgPng nameEvidence)).outcomes = [] := by decide

/-- C4 witness: a concrete vanished source in the sequential variant is
skipped with no destructive action. -/
theorem claim4_witness :
    processSingle envVanish false baseW (initState [(pathJpgPng, contentPng)])
      ⟨pathJpgPng, nameEvidence⟩ =
      ({ initState [(pathJpgPng, contentPng)] with
          fs := removeFile (initState [(pathJpgPng, contentPng)]).fs pathJpgPng },
        PRes.ok Outcome.skippedVanished) :=
  claim4_vanished_skip envVanish false baseW (initState [(pathJpgPng, contentPng)])
    ⟨pathJpgPng, nameEvidence⟩ contentPng "PNG".toList ".png".toList
    (by decide) (by decide) (by decide) rfl (by decide) (by decide) rfl

theorem detect_pool_total (env : Env) (fs : FS) (p : MPath)
    (hrn : ∀ q r, env.renameFail q r = false)
    (hvan : ∀ q, env.vanishes q = false) :
    ∃ fs1 r, detect_media_and_normalize_suffix env fs p = (fs1, PRes.ok r) := by
  rcases hfmt : detect_image_format env fs p with _ | fmt
  · by_cases hv : lowerExt p ∈ known_video_suffixes
    · rcases hres : is_valid_video_ffprobe env fs p with _ | b
      · exact ⟨fs, none,
          detect_none_of_video_probe_not_ok env fs p hfmt hv (by simp [hres])⟩
      · cases b
        · exact ⟨fs, none,
            detect_none_of_video_probe_not_ok env fs p hfmt hv (by simp [hres])⟩
        · exact ⟨fs, some p, detect_some_of_video_probe_ok env fs p hfmt hv hres⟩
    · exact ⟨fs, none, detect_none_of_unrecognized env fs p hfmt hv⟩
  · rcases hmap : image_format_to_suffix fmt with _ | newExt
    · exact ⟨fs, some p, by simp only [detect_media_and_normalize_suffix, hfmt, hmap]⟩
    · by_cases hsuf : lowerExt p = newExt
      · exact ⟨fs, some p,
          by simp only [detect_media_and_normalize_suffix, hfmt, hmap, if_pos hsuf]⟩
      · refine ⟨renameFile fs p (next_free_name fs
          ⟨p.dir, '(' :: (oldExtTag (lowerExt p) ++ ')' :: p.stem), newExt⟩),
          some (next_free_name fs
          ⟨p.dir, '(' :: (oldExtTag (lowerExt p) ++ ')' :: p.stem), newExt⟩), ?_⟩
        simp only [detect_media_and_normalize_suffix, hfmt, hmap, if_neg hsuf,
          hvan, hrn, Bool.false_eq_true, if_false]

theorem processPool_total (env : Env) (moveMode : Bool) (base : List Char)
    (hrn : ∀ q r, env.renameFail q r = false)
    (hvan : ∀ q, env.vanishes q = false) (st : RunState) (t : MTask) :
    ∃ st1 o, processPool env moveMode base st t = (st1, PRes.ok o) := by
  obtain ⟨fs1, r, hdet⟩ := detect_pool_total env st.fs t.oldPath hrn hvan
  cases r with
  | none =>
    exact ⟨_, Outcome.rejected, by simp only [processPool, hdet]; rfl⟩
  | some norm =>
    rcases hval : is_valid_media env fs1 norm with _ | b
    · exact ⟨_, Outcome.quarantined, by simp only [processPool, hdet, hval]; rfl⟩
    · cases b
      · exact ⟨_, Outcome.rejected, by simp only [processPool, hdet, hval]; rfl⟩
      · cases moveMode
        · exact ⟨_, Outcome.accepted, by
            simp only [processPool, hdet, hval, hrn, Bool.false_eq_true, if_false]; rfl⟩
        · exact ⟨_, Outcome.accepted, by
            simp only [processPool, hdet, hval, eq_self_iff_true, if_true]; rfl⟩

theorem runLoop_no_abort
    (process : RunState → MTask → RunState × PRes Outcome)
    (h : ∀ st t, ∃ st1 o, process st t = (st1, PRes.ok o)) :
    ∀ ts st, (runLoop process st ts).aborted = false := by
  intro ts
  induction ts with
  | nil => intro st; rfl
  | cons t ts ih =>
    intro st
    obtain ⟨st1, o, he⟩ := h st t
    simp only [runLoop, he]
    exact ih st1

/-- C3 (amended): the wrapped filesystem operations — moves to invalid/,
timeout/ and valid/, and deletions — never abort the run: with no unwrapped
rename failing and no source vanishing, the pool pipeline completes for every
manifest and filesystem, whatever move or delete failures occur. The
destructive-mode accept rename and the classifier's normalization rename are
the unwrapped exceptions: a failure there propagates and aborts the run (see
the counterexample). -/
theorem claim3_wrapped_no_abort (env : Env) (moveMode : Bool) (base : List Char)
    (fs : FS) (value : List CaseEntry)
    (hrn : ∀ q r, env.renameFail q r = false)
    (hvan : ∀ q, env.vanishes q = false) :
    (rename_media_files env base moveMode fs value).aborted = false :=
  runLoop_no_abort (processPool env moveMode base)
    (fun st t => processPool_total env moveMode base hrn hvan st t)
    (collectTasks fs value) (initState fs)

def pathPng1 : MPath := ⟨baseW, "a".toList, ".png".toList⟩

def pathPng2 : MPath := ⟨baseW, "c".toList, ".png".toList⟩

def fsC3 : FS := [(pathPng1, contentPng), (pathPng2, contentPng)]

def manifestC3 : List CaseEntry :=
  [⟨[⟨some pathPng1, [⟨some ⟨"a2".toList, ".png".toList⟩⟩]⟩,
     ⟨some pathPng2, [⟨some ⟨"c2".toList, ".png".toList⟩⟩]⟩]⟩]

/-- C3 counterexample: with two collected records, a failure of the first
record's accept rename (an unwrapped filesystem operation) aborts the whole
run: no outcome is recorded and the second record is never processed. -/
theorem claim3_counterexample :
    (rename_media_files envRenameFail baseW false fsC3 manifestC3).aborted = true ∧
    (rename_media_files envRenameFail baseW false fsC3 manifestC3).outcomes = [] ∧
    (collectTasks fsC3 manifestC3).length = 2 := by decide

/-- C3 witness: a concrete run on a clean host completes without aborting. -/
theorem claim3_witness :
    (rename_media_files envStd baseW false [(pathJpgPng, contentPng)]
      (mkManifest pathJpgPng nameEvidence)).aborted = false :=
  claim3_wrapped_no_abort envStd false baseW [(pathJpgPng, contentPng)]
    (mkManifest pathJpgPng nameEvidence) (fun _ _ => rfl) (fun _ => rfl)

/-- How one record's outcome changes the three statistics counters. -/
def counterStep (st st1 : RunState) (o : Outcome) : Prop :=
  st1.validCount = st.validCount + (if o = Outcome.accepted then 1 else 0) ∧
  st1.invalidCount = st.invalidCount + (if o = Outcome.rejected then 1 else 0) ∧
  st1.skippedTimeout = st.skippedTimeout + (if o = Outcome.quarantined then 1 else 0)

theorem processPool_counterStep (env : Env) (moveMode : Bool) (base : List Char)
    (st : RunState) (t : MTask) (st1 : RunState) (o : Outcome)
    (h : processPool env moveMode base st t = (st1, PRes.ok o)) :
    counterStep st st1 o := by
  rw [processPool] at h
  split at h
  · simp at h
  · simp only [Prod.mk.injEq, PRes.ok.injEq] at h
    obtain ⟨h1, h2⟩ := h
    subst h1
    subst h2
    simp [counterStep]
  · split at h
    · simp only [Prod.mk.injEq, PRes.ok.injEq] at h
      obtain ⟨h1, h2⟩ := h
      subst h1
      subst h2
      simp [counterStep]
    · simp only [Prod.mk.injEq, PRes.ok.injEq] at h
      obtain ⟨h1, h2⟩ := h
      subst h1
      subst h2
      simp [counterStep]
    · split at h
      · simp only [Prod.mk.injEq, PRes.ok.injEq] at h
        obtain ⟨h1, h2⟩ := h
        subst h1
        subst h2
        simp [counterStep]
      · dsimp only at h
        split at h
        · simp at h
        · simp only [Prod.mk.injEq, PRes.ok.injEq] at h
          obtain ⟨h1, h2⟩ := h
          subst h1
          subst h2
          simp [counterStep]

theorem processSingle_counterStep (env : Env) (moveMode : Bool) (base : List Char)
    (st : RunState) (t : MTask) (st1 : RunState) (o : Outcome)
    (h : processSingle env moveMode base st t = (st1, PRes.ok o)) :
    counterStep st st1 o := by
  rw [processSingle] at h
  split at h
  · simp at h
  · split at h
    · simp only [Prod.mk.injEq, PRes.ok.injEq] at h
      obtain ⟨h1, h2⟩ := h
      subst h1
      subst h2
      simp [counterStep]
    · simp only [Prod.mk.injEq, PRes.ok.injEq] at h
      obtain ⟨h1, h2⟩ := h
      subst h1
      subst h2
      simp [counterStep]
  · split at h
    · simp only [Prod.mk.injEq, PRes.ok.injEq] at h
      obtain ⟨h1, h2⟩ := h
      subst h1
      subst h2
      simp [counterStep]
    · simp only [Prod.mk.injEq, PRes.ok.injEq] at h
      obtain ⟨h1, h2⟩ := h
      subst h1
      subst h2
      simp [counterStep]
    · split at h
      · simp only [Prod.mk.injEq, PRes.ok.injEq] at h
        obtain ⟨h1, h2⟩ := h
        subst h1
        subst h2
        simp [counterStep]
      · dsimp only at h
        split at h
        · simp at h
        · simp only [Prod.mk.injEq, PRes.ok.injEq] at h
          obtain ⟨h1, h2⟩ := h
          subst h1
          subst h2
          simp [counterStep]

theorem runLoop_counts (process : RunState → MTask → RunState × PRes Outcome)
    (hstep : ∀ st t st1 o, process st t = (st1, PRes.ok o) → counterStep st st1 o) :
    ∀ ts st, (runLoop process st ts).aborted = false →
      (runLoop process st ts).outcomes.length = ts.length ∧
      (runLoop process st ts).state.validCount =
        st.validCount + (runLoop process st ts).outcomes.count Outcome.accepted ∧
      (runLoop process st ts).state.invalidCount =
        st.invalidCount + (runLoop process st ts).outcomes.count Outcome.rejected ∧
      (runLoop process st ts).state.skippedTimeout =
        st.skippedTimeout + (runLoop process st ts).outcomes.count Outcome.quarantined := by
  intro ts
  induction ts with
  | nil =>
    intro st hab
    simp [runLoop]
  | cons t ts ih =>
    intro st hab
    rcases hp : process st t with ⟨st1, r⟩
    cases r with
    | raised e =>
      rw [runLoop, hp] at hab
      simp at hab
    | ok o =>
      have hcs := hstep st t st1 o hp
      have hab2 : (runLoop process st1 ts).aborted = false := by
        simp only [runLoop, hp] at hab
        exact hab
      obtain ⟨hl, hv, hi, hs⟩ := ih st1 hab2
      refine ⟨?_, ?_, ?_, ?_⟩
      · simp only [runLoop, hp, List.length_cons]
        rw [hl]
      · simp only [runLoop, hp]
        rw [hv, hcs.1]
        cases o <;> (simp [List.count_cons]; try omega)
      · simp only [runLoop, hp]
        rw [hi, hcs.2.1]
        cases o <;> (simp [List.count_cons]; try omega)
      · simp only [runLoop, hp]
        rw [hs, hcs.2.2]
        cases o <;> (simp [List.count_cons]; try omega)

theorem count_outcomes_total (os : List Outcome) :
    os.count Outcome.accepted + os.count Outcome.rejected +
      os.count Outcome.quarantined + os.count Outcome.skippedVanished = os.length := by
  induction os with
  | nil => rfl
  | cons o os ih =>
    cases o <;> simp [List.count_cons] <;> omega

/-- C9 (amended): in every run that completes (no unhandled rename error — see
C3), each collected record reaches exactly one outcome among Accepted,
Rejected, Quarantined and Skipped-source-vanished, and the counters satisfy
validCount + invalidCount + skippedTimeout + skippedVanishedCount = total
collected records, in both the pool and the sequential variant. An aborting
run violates the partition (see the counterexample). -/
theorem claim9_outcome_partition :
    (∀ (env : Env) (base : List Char) (moveMode : Bool) (fs : FS)
      (value : List CaseEntry),
      (rename_media_files env base moveMode fs value).aborted = false →
      (rename_media_files env base moveMode fs value).outcomes.length =
        (collectTasks fs value).length ∧
      (rename_media_files env base moveMode fs value).state.validCount +
        (rename_media_files env base moveMode fs value).state.invalidCount +
        (rename_media_files env base moveMode fs value).state.skippedTimeout +
        (rename_media_files env base moveMode fs value).outcomes.count
          Outcome.skippedVanished =
        (collectTasks fs value).length) ∧
    (∀ (env : Env) (base : List Char) (moveMode : Bool) (fs : FS)
      (value : List CaseEntry),
      (rename_media_files_single env base moveMode fs value).aborted = false →
      (rename_media_files_single env base moveMode fs value).outcomes.length =
        (collectTasks fs value).length ∧
      (rename_media_files_single env base moveMode fs value).state.validCount +
        (rename_media_files_single env base moveMode fs value).state.invalidCount +
        (rename_media_files_single env base moveMode fs value).state.skippedTimeout +
        (rename_media_files_single env base moveMode fs value).outcomes.count
          Outcome.skippedVanished =
        (collectTasks fs value).length) := by
  constructor
  · intro env base moveMode fs value hab
    have h := runLoop_counts (processPool env moveMode base)
      (fun st t st1 o => processPool_counterStep env moveMode base st t st1 o)
      (collectTasks fs value) (initState fs) hab
    obtain ⟨hl, hv, hi, hs⟩ := h
    refine ⟨hl, ?_⟩
    have htot := count_outcomes_total
      (rename_media_files env base moveMode fs value).outcomes
    rw [rename_media_files] at *
    rw [show (initState fs).validCount = 0 from rfl] at hv
    rw [show (initState fs).invalidCount = 0 from rfl] at hi
    rw [show (initState fs).skippedTimeout = 0 from rfl] at hs
    omega
  · intro env base moveMode fs value hab
    have h := runLoop_counts (processSingle env moveMode base)
      (fun st t st1 o => processSingle_counterStep env moveMode base st t st1 o)
      (collectTasks fs value) (initState fs) hab
    obtain ⟨hl, hv, hi, hs⟩ := h
    refine ⟨hl, ?_⟩
    have htot := count_outcomes_total
      (rename_media_files_single env base moveMode fs value).outcomes
    rw [rename_media_files_single] at *
    rw [show (initState fs).validCount = 0 from rfl] at hv
    rw [show (initState fs).invalidCount = 0 from rfl] at hi
    rw [show (initState fs).skippedTimeout = 0 from rfl] at hs
    omega

/-- C9 counterexample: a sequential destructive run whose first record's
accept rename fails aborts with validCount already incremented: the counters
no longer sum to the number of collected records, and not every record reached
an outcome. -/
theorem claim9_counterexample :
    (rename_media_files_single envRenameFail baseW false fsC3 manifestC3).aborted =
      true ∧
    (rename_media_files_single envRenameFail baseW false fsC3 manifestC3).state.validCount +
      (rename_media_files_single envRenameFail baseW false fsC3 manifestC3).state.invalidCount +
      (rename_media_files_single envRenameFail baseW false fsC3 manifestC3).state.skippedTimeout +
      (rename_media_files_single envRenameFail baseW false fsC3 manifestC3).outcomes.count
        Outcome.skippedVanished ≠
      (collectTasks fsC3 manifestC3).length := by decide

/-- C9 witness: a completing sequential run on a concrete manifest satisfies
the outcome partition. -/
theorem claim9_witness :
    (rename_media_files_single envStd baseW false [(pathJpgPng, contentPng)]
      (mkManifest pathJpgPng nameEvidence)).outcomes.length =
      (collectTasks [(pathJpgPng, contentPng)]
        (mkManifest pathJpgPng nameEvidence)).length ∧
    (rename_media_files_single envStd baseW false [(pathJpgPng, contentPng)]
      (mkManifest pathJpgPng nameEvidence)).state.validCount +
      (rename_media_files_single envStd baseW false [(pathJpgPng, contentPng)]
        (mkManifest pathJpgPng nameEvidence)).state.invalidCount +
      (rename_media_files_single envStd baseW false [(pathJpgPng, contentPng)]
        (mkManifest pathJpgPng nameEvidence)).state.skippedTimeout +
      (rename_media_files_single envStd baseW false [(pathJpgPng, contentPng)]
        (mkManifest pathJpgPng nameEvidence)).outcomes.count
        Outcome.skippedVanished =
      (collectTasks [(pathJpgPng, contentPng)]
        (mkManifest pathJpgPng nameEvidence)).length :=
  claim9_outcome_partition.2 envStd baseW false [(pathJpgPng, contentPng)]
    (mkManifest pathJpgPng nameEvidence) (by decide)

end VMedia
